import Mathlib

/-!
Shallow embedding of the `fsm` package (file `fsm.go`): a finite-state-machine
engine whose table maps `(from-state, event)` keys to transitions, together with
its three diagram renderers.  Go strings become Lean `String`, the Go
`map[eKey]*Transition` becomes an association list (the only observations the
code makes of the map are keyed lookup, keyed insertion, and iteration followed
by sorting, all of which are order-insensitive given unique keys), Go `error`
results become `Option Err` with `none` for a nil error, and the mutex — which
only serialises access and has no effect on sequential semantics — is recorded
separately by `acquiresTableLock`.
-/

/-- Go `type State string`: an opaque comparable label. -/
abbrev State := String

/-- Go `type Event string`: an opaque comparable label. -/
abbrev Event := String

/-- A Go `error` value, modelled by its message; `Option Err` models a
possibly-nil error, `none` being nil (success). -/
abbrev Err := String

/-- Go `type TransitionHandler func(from State, e Event, to State) error`. -/
abbrev TransitionHandler := State → Event → State → Option Err

/-- Go `type eKey struct { From State; Event Event }`, the composite map key. -/
structure eKey where
  From : State
  Event : Event
deriving DecidableEq

/-- Go `type Transition struct { From State; Event Event; To State; Handle TransitionHandler }`. -/
structure Transition where
  From : State
  Event : Event
  To : State
  Handle : TransitionHandler

/-- Go `type StateMachine struct { current State; transitions map[eKey]*Transition; mutex sync.Mutex }`.
The map is modelled as an association list of key/transition pairs; the mutex is
not part of the sequential state. -/
structure StateMachine where
  current : State
  transitions : List (eKey × Transition)

/-- Go `NewStateMachine(current State)`: a machine with the given current state
and no transitions (`transitions` is the nil map). -/
def NewStateMachine (current : State) : StateMachine :=
  { current := current, transitions := [] }

/-- Go `func (fm *StateMachine) CurrentState() State { return fm.current }`. -/
def CurrentState (fm : StateMachine) : State :=
  fm.current

/-- Go map lookup `trans, ok := fm.transitions[k]`, on the association-list
model of the map. -/
def lookupT (ts : List (eKey × Transition)) (k : eKey) : Option Transition :=
  match ts with
  | [] => none
  | p :: rest => if p.1 = k then some p.2 else lookupT rest k

/-- The message built by `fmt.Errorf("state, event: [%v, %v] undefined", fm.current, event)`. -/
def undefinedMsg (s : State) (e : Event) : Err :=
  "state, event: [" ++ s ++ ", " ++ e ++ "] undefined"

/-- The message built by `fmt.Errorf("state, event: [%v, %v] existed", from, event)`. -/
def existedMsg (s : State) (e : Event) : Err :=
  "state, event: [" ++ s ++ ", " ++ e ++ "] existed"

/-- Go `func (fm *StateMachine) Trigger(event Event) error`; the result pairs
the machine after the call with the returned error (`none` = nil). -/
def Trigger (fm : StateMachine) (event : Event) : StateMachine × Option Err :=
  match lookupT fm.transitions { From := fm.current, Event := event } with
  | some tr =>
    match tr.Handle fm.current event tr.To with
    | some err => (fm, some err)
    | none => ({ fm with current := tr.To }, none)
  | none => (fm, some (undefinedMsg fm.current event))

/-- Go `func (fm *StateMachine) addTransition(transition *Transition) error`:
reject a key that is already present, otherwise insert it.  In the
association-list model insertion of a fresh key is an append. -/
def addTransition (fm : StateMachine) (transition : Transition) : StateMachine × Option Err :=
  match lookupT fm.transitions { From := transition.From, Event := transition.Event } with
  | some _ => (fm, some (existedMsg transition.From transition.Event))
  | none =>
    ({ fm with transitions :=
        fm.transitions ++ [({ From := transition.From, Event := transition.Event }, transition)] },
      none)

/-- Go `func (fm *StateMachine) AddTransitions(transitions ...*Transition) error`:
add each transition in order, stopping at the first error. -/
def AddTransitions (fm : StateMachine) (transitions : List Transition) : StateMachine × Option Err :=
  match transitions with
  | [] => (fm, none)
  | t :: ts =>
    match addTransition fm t with
    | (fm2, none) => AddTransitions fm2 ts
    | (fm2, some err) => (fm2, some err)

/-- One call of the mutating public API: an `AddTransitions` batch or a `Trigger`. -/
inductive Op where
  | add (ts : List Transition)
  | fire (e : Event)

/-- Apply one public call to the machine, keeping only the machine. -/
def runOp (fm : StateMachine) (op : Op) : StateMachine :=
  match op with
  | .add ts => (AddTransitions fm ts).1
  | .fire e => (Trigger fm e).1

/-- The machine obtained from `NewStateMachine init` by a sequence of public calls. -/
def run (init : State) (ops : List Op) : StateMachine :=
  ops.foldl runOp (NewStateMachine init)

/-- The table has at most one transition per `(from, event)` key: the list of
keys contains no duplicate.  This is the invariant a Go map enjoys by
construction. -/
def KeysNodup (ts : List (eKey × Transition)) : Prop :=
  (ts.map Prod.fst).Nodup

/-- Claim C1: if the key `(currentState, event)` is registered and the
transition's handler returns an error, `Trigger` returns exactly that error and
the machine — in particular its current state — is unchanged: the state update
happens strictly after handler success. -/
theorem trigger_handler_error_aborts (fm : StateMachine) (e : Event) (t : Transition) (err : Err)
    (hk : lookupT fm.transitions { From := fm.current, Event := e } = some t)
    (hh : t.Handle fm.current e t.To = some err) :
    Trigger fm e = (fm, some err) ∧ CurrentState (Trigger fm e).1 = CurrentState fm := by
  simp only [Trigger, hk, hh]
  simp [CurrentState]

/-- A handler that always fails, for concrete scenarios. -/
def failingHandler : TransitionHandler := fun _ _ _ => some "payment declined"

/-- A handler that always succeeds, for concrete scenarios. -/
def okHandler : TransitionHandler := fun _ _ _ => none

/-- Scenario C transition: `(A, X) -> B` with an always-failing handler. -/
def tAX : Transition := { From := "A", Event := "X", To := "B", Handle := failingHandler }

/-- Scenario C machine: start at `A`, register `tAX`. -/
def fmC : StateMachine := (AddTransitions (NewStateMachine "A") [tAX]).1

/-- Witness for C1 (Scenario C): `(A, X)` is registered with a failing handler;
`Trigger X` from `A` returns the handler's error and leaves the state at `A`. -/
theorem trigger_handler_error_aborts_witness :
    lookupT fmC.transitions { From := fmC.current, Event := "X" } = some tAX ∧
    tAX.Handle fmC.current "X" tAX.To = some "payment declined" ∧
    (Trigger fmC "X" = (fmC, some "payment declined") ∧
      CurrentState (Trigger fmC "X").1 = CurrentState fmC) :=
  ⟨rfl, rfl, trigger_handler_error_aborts fmC "X" tAX "payment declined" rfl rfl⟩

/-- Claim C3: if the current state has a registered transition for the event and
its handler succeeds, `Trigger` returns success and the current state becomes
the transition's `to` state. -/
theorem trigger_handler_success_advances (fm : StateMachine) (e : Event) (t : Transition)
    (hk : lookupT fm.transitions { From := fm.current, Event := e } = some t)
    (hh : t.Handle fm.current e t.To = none) :
    Trigger fm e = ({ fm with current := t.To }, none) ∧
    CurrentState (Trigger fm e).1 = t.To := by
  simp only [Trigger, hk, hh]
  simp [CurrentState]

/-- Scenario A transition `(Pending, Pay) -> Paid`. -/
def tPay : Transition := { From := "Pending", Event := "Pay", To := "Paid", Handle := okHandler }

/-- Scenario A transition `(Pending, Cancel) -> Canceled`. -/
def tCancel : Transition :=
  { From := "Pending", Event := "Cancel", To := "Canceled", Handle := okHandler }

/-- Scenario A machine: start at `Pending`, register `tPay` and `tCancel`. -/
def fmA : StateMachine := (AddTransitions (NewStateMachine "Pending") [tPay, tCancel]).1

/-- Witness for C3 (Scenario A): `Trigger Pay` from `Pending` succeeds and the
current state becomes `Paid`. -/
theorem trigger_handler_success_advances_witness :
    lookupT fmA.transitions { From := fmA.current, Event := "Pay" } = some tPay ∧
    tPay.Handle fmA.current "Pay" tPay.To = none ∧
    (Trigger fmA "Pay" = ({ fmA with current := "Paid" }, none) ∧
      CurrentState (Trigger fmA "Pay").1 = "Paid") :=
  ⟨rfl, rfl, trigger_handler_success_advances fmA "Pay" tPay rfl rfl⟩

/-- Claim C4: if no transition is registered for `(currentState, event)`,
`Trigger` fails with the "undefined" error — whose text contains both the
current state and the event — and the machine is unchanged. -/
theorem trigger_undefined_noop (fm : StateMachine) (e : Event)
    (hk : lookupT fm.transitions { From := fm.current, Event := e } = none) :
    Trigger fm e = (fm, some (undefinedMsg fm.current e)) ∧
    CurrentState (Trigger fm e).1 = CurrentState fm ∧
    fm.current.data <:+: (undefinedMsg fm.current e).data ∧
    e.data <:+: (undefinedMsg fm.current e).data := by
  refine ⟨?_, ?_, ?_, ?_⟩
  · simp only [Trigger, hk]
  · simp only [Trigger, hk, CurrentState]
  · refine ⟨"state, event: [".data, (", " ++ e ++ "] undefined").data, ?_⟩
    simp [undefinedMsg, String.data_append, List.append_assoc]
  · refine ⟨("state, event: [" ++ fm.current ++ ", ").data, "] undefined".data, ?_⟩
    simp [undefinedMsg, String.data_append, List.append_assoc]

/-- The Scenario A machine after the successful `Pay` trigger: current state `Paid`. -/
def fmPaid : StateMachine := (Trigger fmA "Pay").1

/-- Witness for C4 (Scenario A, second step): from `Paid`, no `(Paid, Cancel)`
transition exists, so `Trigger Cancel` fails with the undefined-transition
error naming `Paid` and `Cancel`, and the state stays `Paid`. -/
theorem trigger_undefined_noop_witness :
    lookupT fmPaid.transitions { From := fmPaid.current, Event := "Cancel" } = none ∧
    (Trigger fmPaid "Cancel" = (fmPaid, some (undefinedMsg fmPaid.current "Cancel")) ∧
      CurrentState (Trigger fmPaid "Cancel").1 = CurrentState fmPaid ∧
      fmPaid.current.data <:+: (undefinedMsg fmPaid.current "Cancel").data ∧
      ("Cancel" : String).data <:+: (undefinedMsg fmPaid.current "Cancel").data) ∧
    undefinedMsg fmPaid.current "Cancel" = "state, event: [Paid, Cancel] undefined" :=
  ⟨rfl, trigger_undefined_noop fmPaid "Cancel" rfl, rfl⟩

/-- `addTransition` never changes the current state. -/
theorem addTransition_current (fm : StateMachine) (t : Transition) :
    (addTransition fm t).1.current = fm.current := by
  unfold addTransition
  rcases hl : lookupT fm.transitions { From := t.From, Event := t.Event } with _ | u <;> rfl

/-- `AddTransitions` never changes the current state. -/
theorem addTransitions_current (fm : StateMachine) (ts : List Transition) :
    (AddTransitions fm ts).1.current = fm.current := by
  induction ts generalizing fm with
  | nil => rfl
  | cons t ts ih =>
    have hc := addTransition_current fm t
    rcases h : addTransition fm t with ⟨fm2, e⟩
    rw [h] at hc
    cases e with
    | none =>
      simp only [AddTransitions, h]
      rw [ih fm2]
      exact hc
    | some err =>
      simp only [AddTransitions, h]
      exact hc

/-- Unfolding one public call at the end of a run. -/
theorem run_append_one (init : State) (ops : List Op) (op : Op) :
    run init (ops ++ [op]) = runOp (run init ops) op := by
  simp [run, List.foldl_append]

/-- The state `s` is the `to` state of a transition that was registered and
successfully applied at some point of the run: `ops` splits as `pre` followed by
a `Trigger` of event `e`, at that point the key `(current, e)` was registered
with transition `t`, the handler succeeded, and `s = t.To`. -/
def AppliedTo (init : State) (ops : List Op) (s : State) : Prop :=
  ∃ pre e t post,
    ops = pre ++ Op.fire e :: post ∧
    lookupT (run init pre).transitions { From := (run init pre).current, Event := e } = some t ∧
    t.Handle (run init pre).current e t.To = none ∧
    s = t.To

/-- A step that leaves the current state unchanged preserves the provenance
disjunction. -/
theorem appliedTo_transfer (init : State) (ops : List Op) (op : Op)
    (hcur : (run init (ops ++ [op])).current = (run init ops).current)
    (ih : (run init ops).current = init ∨ AppliedTo init ops (run init ops).current) :
    (run init (ops ++ [op])).current = init ∨
      AppliedTo init (ops ++ [op]) (run init (ops ++ [op])).current := by
  rcases ih with h | ⟨pre, e, t, post, h1, h2, h3, h4⟩
  · exact Or.inl (hcur.trans h)
  · refine Or.inr ⟨pre, e, t, post ++ [op], ?_, h2, h3, ?_⟩
    · rw [h1]
      simp
    · rw [hcur]
      exact h4

/-- Claim C2: after any sequence of `AddTransitions` and `Trigger` calls from
construction, the current state is either the construction state or the `to`
state of some previously and successfully applied registered transition. -/
theorem current_state_provenance (init : State) (ops : List Op) :
    (run init ops).current = init ∨ AppliedTo init ops (run init ops).current := by
  induction ops using List.reverseRecOn with
  | nil => exact Or.inl rfl
  | append_singleton ops op ih =>
    rcases op with ts | e
    · refine appliedTo_transfer init ops (Op.add ts) ?_ ih
      rw [run_append_one]
      exact addTransitions_current _ ts
    · rcases hl : lookupT (run init ops).transitions
          { From := (run init ops).current, Event := e } with _ | t
      · refine appliedTo_transfer init ops (Op.fire e) ?_ ih
        rw [run_append_one]
        simp [runOp, Trigger, hl]
      · rcases hh : t.Handle (run init ops).current e t.To with _ | err
        · refine Or.inr ⟨ops, e, t, [], rfl, hl, hh, ?_⟩
          rw [run_append_one]
          simp [runOp, Trigger, hl, hh]
        · refine appliedTo_transfer init ops (Op.fire e) ?_ ih
          rw [run_append_one]
          simp [runOp, Trigger, hl, hh]

/-- Splitting an `AddTransitions` batch after an error-free first part. -/
theorem addTransitions_append_of_ok (fm : StateMachine) (l1 l2 : List Transition)
    (hok : (AddTransitions fm l1).2 = none) :
    AddTransitions fm (l1 ++ l2) = AddTransitions (AddTransitions fm l1).1 l2 := by
  induction l1 generalizing fm with
  | nil => rfl
  | cons t ts ih =>
    rcases h : addTransition fm t with ⟨fm2, e⟩
    cases e with
    | none =>
      simp only [List.cons_append, AddTransitions, h] at hok ⊢
      exact ih fm2 hok
    | some err =>
      simp only [AddTransitions, h] at hok
      exact Option.noConfusion hok

/-- `addTransition` only ever appends to the table. -/
theorem addTransition_extends (fm : StateMachine) (t : Transition) :
    ∃ l, (addTransition fm t).1.transitions = fm.transitions ++ l := by
  unfold addTransition
  rcases hl : lookupT fm.transitions { From := t.From, Event := t.Event } with _ | u
  · exact ⟨[({ From := t.From, Event := t.Event }, t)], rfl⟩
  · exact ⟨[], by simp⟩

/-- `AddTransitions` only ever appends to the table: everything registered by
earlier calls stays registered. -/
theorem addTransitions_extends (fm : StateMachine) (ts : List Transition) :
    ∃ l, (AddTransitions fm ts).1.transitions = fm.transitions ++ l := by
  induction ts generalizing fm with
  | nil => exact ⟨[], by simp [AddTransitions]⟩
  | cons t ts ih =>
    obtain ⟨l0, h0⟩ := addTransition_extends fm t
    rcases h : addTransition fm t with ⟨fm2, e⟩
    rw [h] at h0
    cases e with
    | none =>
      obtain ⟨l1, hl1⟩ := ih fm2
      refine ⟨l0 ++ l1, ?_⟩
      simp only [AddTransitions, h]
      rw [hl1]
      show fm2.transitions ++ l1 = fm.transitions ++ (l0 ++ l1)
      rw [h0, List.append_assoc]
    | some err =>
      refine ⟨l0, ?_⟩
      simp only [AddTransitions, h]
      exact h0

/-- A lookup misses exactly when the key is absent from the table. -/
theorem lookupT_eq_none_iff (ts : List (eKey × Transition)) (k : eKey) :
    lookupT ts k = none ↔ k ∉ ts.map Prod.fst := by
  induction ts with
  | nil => simp [lookupT]
  | cons p ts ih =>
    simp only [lookupT, List.map_cons, List.mem_cons]
    by_cases h : p.1 = k
    · simp [h]
    · simp only [if_neg h, ih]
      constructor
      · intro hk hor
        rcases hor with h1 | h2
        · exact h h1.symm
        · exact hk h2
      · intro hni hm
        exact hni (Or.inr hm)

/-- A successful lookup returns an entry of the table. -/
theorem mem_of_lookupT_eq_some {ts : List (eKey × Transition)} {k : eKey} {v : Transition}
    (h : lookupT ts k = some v) : (k, v) ∈ ts := by
  induction ts with
  | nil => exact Option.noConfusion h
  | cons p ts ih =>
    by_cases hp : p.1 = k
    · simp only [lookupT, if_pos hp] at h
      have hv : p.2 = v := Option.some.inj h
      exact List.mem_cons.mpr (Or.inl (by rw [← hp, ← hv]))
    · simp only [lookupT, if_neg hp] at h
      exact List.mem_cons.mpr (Or.inr (ih h))

/-- With no duplicate key, membership determines the lookup result. -/
theorem lookupT_eq_some_of_mem (ts : List (eKey × Transition)) (hnd : KeysNodup ts)
    {k : eKey} {v : Transition} (hm : (k, v) ∈ ts) : lookupT ts k = some v := by
  induction ts with
  | nil => cases hm
  | cons p ts ih =>
    simp only [KeysNodup, List.map_cons, List.nodup_cons] at hnd
    rcases List.mem_cons.mp hm with h | h
    · rw [← h]
      simp [lookupT]
    · have hne : p.1 ≠ k := by
        intro he
        exact hnd.1 (he ▸ List.mem_map.mpr ⟨(k, v), h, rfl⟩)
      simp only [lookupT, if_neg hne]
      exact ih hnd.2 h

/-- Tables that are rearrangements of each other (and duplicate-free, as Go
maps are) answer every lookup identically. -/
theorem lookupT_perm {ts1 ts2 : List (eKey × Transition)} (hp : ts1.Perm ts2)
    (hnd : KeysNodup ts1) (k : eKey) : lookupT ts1 k = lookupT ts2 k := by
  have hnd2 : KeysNodup ts2 := ((hp.map Prod.fst).nodup_iff).mp hnd
  rcases h1 : lookupT ts1 k with _ | v
  · have hni : k ∉ ts1.map Prod.fst := (lookupT_eq_none_iff ts1 k).mp h1
    have hni2 : k ∉ ts2.map Prod.fst := fun hm => hni ((hp.map Prod.fst).mem_iff.mpr hm)
    exact ((lookupT_eq_none_iff ts2 k).mpr hni2).symm
  · exact (lookupT_eq_some_of_mem ts2 hnd2 (hp.mem_iff.mp (mem_of_lookupT_eq_some h1))).symm

/-- `addTransition` preserves key uniqueness: it refuses keys already present. -/
theorem addTransition_keysNodup (fm : StateMachine) (t : Transition)
    (hnd : KeysNodup fm.transitions) : KeysNodup (addTransition fm t).1.transitions := by
  unfold addTransition
  rcases hl : lookupT fm.transitions { From := t.From, Event := t.Event } with _ | u
  · have hk : ({ From := t.From, Event := t.Event } : eKey) ∉ fm.transitions.map Prod.fst :=
      (lookupT_eq_none_iff _ _).mp hl
    show KeysNodup (fm.transitions ++ [({ From := t.From, Event := t.Event }, t)])
    simp only [KeysNodup, List.map_append, List.map_cons, List.map_nil]
    rw [List.nodup_append]
    exact ⟨hnd, List.nodup_singleton _, by simp [List.disjoint_singleton, hk]⟩
  · exact hnd

/-- `AddTransitions` preserves key uniqueness. -/
theorem addTransitions_keysNodup (fm : StateMachine) (ts : List Transition)
    (hnd : KeysNodup fm.transitions) : KeysNodup (AddTransitions fm ts).1.transitions := by
  induction ts generalizing fm with
  | nil => exact hnd
  | cons t ts ih =>
    have h2 := addTransition_keysNodup fm t hnd
    rcases h : addTransition fm t with ⟨fm2, e⟩
    rw [h] at h2
    cases e with
    | none =>
      simp only [AddTransitions, h]
      exact ih fm2 h2
    | some err =>
      simp only [AddTransitions, h]
      exact h2

/-- Claim C5: if, after the error-free part `ts1` of a batch, the next
transition `t` hits an already-registered key, then the whole call returns the
duplicate error naming `(t.From, t.Event)`, the resulting table is exactly the
table after `ts1` (the duplicate is not registered and the rest of the batch is
not processed), everything registered before the call survives (the table only
grows by appending), and key uniqueness is preserved. -/
theorem addTransitions_duplicate_stops (fm : StateMachine) (ts1 : List Transition)
    (t : Transition) (ts2 : List Transition) (u : Transition)
    (hok : (AddTransitions fm ts1).2 = none)
    (hdup : lookupT (AddTransitions fm ts1).1.transitions
      { From := t.From, Event := t.Event } = some u) :
    AddTransitions fm (ts1 ++ t :: ts2) =
      ((AddTransitions fm ts1).1, some (existedMsg t.From t.Event)) ∧
    (∃ l, (AddTransitions fm (ts1 ++ t :: ts2)).1.transitions = fm.transitions ++ l) ∧
    (KeysNodup fm.transitions → KeysNodup (AddTransitions fm (ts1 ++ t :: ts2)).1.transitions) := by
  have hmain : AddTransitions fm (ts1 ++ t :: ts2) =
      ((AddTransitions fm ts1).1, some (existedMsg t.From t.Event)) := by
    rw [addTransitions_append_of_ok fm ts1 (t :: ts2) hok]
    simp only [AddTransitions, addTransition, hdup]
  refine ⟨hmain, ?_, ?_⟩
  · rw [hmain]
    exact addTransitions_extends fm ts1
  · intro hnd
    rw [hmain]
    exact addTransitions_keysNodup fm ts1 hnd

/-- Scenario B duplicate: the same key `(Pending, Pay)` as `tPay`, different target. -/
def tPayDup : Transition := { From := "Pending", Event := "Pay", To := "Paid2", Handle := okHandler }

/-- Witness for C5 (Scenario B): registering `(Pending, Pay)` twice fails with
the duplicate error for that key; the table stays as after the first
registration, and the rest of the batch is not processed. -/
theorem addTransitions_duplicate_stops_witness :
    (AddTransitions (NewStateMachine "Pending") [tPay]).2 = none ∧
    lookupT (AddTransitions (NewStateMachine "Pending") [tPay]).1.transitions
      { From := tPayDup.From, Event := tPayDup.Event } = some tPay ∧
    AddTransitions (NewStateMachine "Pending") ([tPay] ++ tPayDup :: [tCancel]) =
      ((AddTransitions (NewStateMachine "Pending") [tPay]).1,
        some "state, event: [Pending, Pay] existed") :=
  ⟨rfl, rfl,
    (addTransitions_duplicate_stops (NewStateMachine "Pending") [tPay] tPayDup [tCancel] tPay
      rfl rfl).1⟩

/-- Claim C6 (amended): from any state reachable by a run of the public API,
`Trigger e` succeeds if and only if the key `(current, e)` is registered and
the registered transition's handler returns no error. -/
theorem trigger_success_iff_registered_handler_ok (init : State) (ops : List Op) (e : Event) :
    (Trigger (run init ops) e).2 = none ↔
      ∃ t, lookupT (run init ops).transitions
          { From := (run init ops).current, Event := e } = some t ∧
        t.Handle (run init ops).current e t.To = none := by
  rcases hl : lookupT (run init ops).transitions
      { From := (run init ops).current, Event := e } with _ | t
  · simp [Trigger, hl]
  · rcases hh : t.Handle (run init ops).current e t.To with _ | err
    · simp [Trigger, hl, hh]
    · simp [Trigger, hl, hh]

/-- Counterexample to C6 as stated: in the reachable machine obtained by
registering `(A, X) -> B` with an always-failing handler (current state `A`,
reachable by the empty trigger sequence), the key `(A, X)` is registered, yet
`Trigger X` does not succeed — it returns the handler's error.  So "Trigger
succeeds iff the key is registered" is false without the handler condition. -/
theorem trigger_success_iff_registered_cex :
    ¬ ((Trigger (run "A" [Op.add [tAX]]) "X").2 = none ↔
       ∃ t, lookupT (run "A" [Op.add [tAX]]).transitions
          { From := (run "A" [Op.add [tAX]]).current, Event := "X" } = some t) := by
  intro h
  have h2 : (Trigger (run "A" [Op.add [tAX]]) "X").2 = none := h.mpr ⟨tAX, rfl⟩
  have h3 : (some "payment declined" : Option Err) = none := h2
  exact Option.noConfusion h3

/-- Lexicographic strict comparison of character sequences.  Go compares
strings bytewise; on valid UTF-8, bytewise order coincides with this
codepoint-lexicographic order. -/
def ltbChars (a b : List Char) : Bool :=
  match a, b with
  | [], [] => false
  | [], _ :: _ => true
  | _ :: _, [] => false
  | x :: xs, y :: ys => if x = y then ltbChars xs ys else decide (x.toNat < y.toNat)

/-- Go's `<` on strings, used by `sort.Strings` and the key sort. -/
def strLt (a b : String) : Bool := ltbChars a.data b.data

theorem ltbChars_irrefl (l : List Char) : ltbChars l l = false := by
  induction l with
  | nil => rfl
  | cons c l ih => simp [ltbChars, ih]

theorem ltbChars_asymm {a b : List Char} (h1 : ltbChars a b = true)
    (h2 : ltbChars b a = true) : False := by
  induction a generalizing b with
  | nil => cases b <;> simp_all [ltbChars]
  | cons x xs ih =>
    cases b with
    | nil => simp [ltbChars] at h1
    | cons y ys =>
      by_cases hxy : x = y
      · subst hxy
        simp only [ltbChars, if_pos rfl] at h1 h2
        exact ih h1 h2
      · have hyx : ¬ y = x := fun he => hxy he.symm
        simp only [ltbChars, if_neg hxy, if_neg hyx, decide_eq_true_eq] at h1 h2
        omega

theorem ltbChars_conn {a b : List Char} (h1 : ltbChars a b = false)
    (h2 : ltbChars b a = false) : a = b := by
  induction a generalizing b with
  | nil =>
    cases b with
    | nil => rfl
    | cons y ys => simp [ltbChars] at h1
  | cons x xs ih =>
    cases b with
    | nil => simp [ltbChars] at h2
    | cons y ys =>
      by_cases hxy : x = y
      · subst hxy
        simp only [ltbChars, if_pos rfl] at h1 h2
        rw [ih h1 h2]
      · have hyx : ¬ y = x := fun he => hxy he.symm
        simp only [ltbChars, if_neg hxy, if_neg hyx, decide_eq_false_iff_not] at h1 h2
        have heq : x.toNat = y.toNat := by omega
        exact absurd (Char.ext (UInt32.toNat.inj heq)) hxy

theorem ltbChars_trans {a b c : List Char} (h1 : ltbChars a b = true)
    (h2 : ltbChars b c = true) : ltbChars a c = true := by
  induction a generalizing b c with
  | nil =>
    cases c with
    | nil => cases b <;> simp_all [ltbChars]
    | cons z zs => simp [ltbChars]
  | cons x xs ih =>
    cases b with
    | nil => simp [ltbChars] at h1
    | cons y ys =>
      cases c with
      | nil => simp [ltbChars] at h2
      | cons z zs =>
        by_cases hxy : x = y
        · subst hxy
          by_cases hxz : x = z
          · subst hxz
            simp only [ltbChars, if_pos rfl] at h1 h2 ⊢
            exact ih h1 h2
          · simp only [ltbChars, if_neg hxz] at h2 ⊢
            exact h2
        · by_cases hyz : y = z
          · subst hyz
            simp only [ltbChars, if_neg hxy] at h1 ⊢
            exact h1
          · simp only [ltbChars, if_neg hxy, if_neg hyz, decide_eq_true_eq] at h1 h2
            by_cases hxz : x = z
            · subst hxz
              omega
            · simp only [ltbChars, if_neg hxz, decide_eq_true_eq]
              omega

theorem strLt_asymm {a b : String} (h1 : strLt a b = true) (h2 : strLt b a = true) : False :=
  ltbChars_asymm h1 h2

theorem strLt_conn {a b : String} (h1 : strLt a b = false) (h2 : strLt b a = false) : a = b :=
  String.ext (ltbChars_conn h1 h2)

theorem strLt_trans {a b c : String} (h1 : strLt a b = true) (h2 : strLt b c = true) :
    strLt a c = true :=
  ltbChars_trans h1 h2

/-- The `less` closure of `getSortedTransitionKeys`: compare `From`, break
ties by `Event`. -/
def kLt (a b : eKey) : Bool :=
  if a.From = b.From then strLt a.Event b.Event else strLt a.From b.From

theorem kLt_asymm {a b : eKey} (h1 : kLt a b = true) (h2 : kLt b a = true) : False := by
  unfold kLt at h1 h2
  by_cases h : a.From = b.From
  · have h' : b.From = a.From := h.symm
    rw [if_pos h] at h1
    rw [if_pos h'] at h2
    exact strLt_asymm h1 h2
  · have h' : ¬ b.From = a.From := fun he => h he.symm
    rw [if_neg h] at h1
    rw [if_neg h'] at h2
    exact strLt_asymm h1 h2

theorem kLt_conn {a b : eKey} (h1 : kLt a b = false) (h2 : kLt b a = false) : a = b := by
  unfold kLt at h1 h2
  by_cases h : a.From = b.From
  · have h' : b.From = a.From := h.symm
    rw [if_pos h] at h1
    rw [if_pos h'] at h2
    have he : a.Event = b.Event := strLt_conn h1 h2
    cases a with
    | mk af ae =>
      cases b with
      | mk bf be =>
        simp only at h he
        rw [h, he]
  · have h' : ¬ b.From = a.From := fun he => h he.symm
    rw [if_neg h] at h1
    rw [if_neg h'] at h2
    exact absurd (strLt_conn h1 h2) h

theorem kLt_trans {a b c : eKey} (h1 : kLt a b = true) (h2 : kLt b c = true) :
    kLt a c = true := by
  unfold kLt at h1 h2 ⊢
  by_cases hab : a.From = b.From <;> by_cases hbc : b.From = c.From
  · rw [if_pos hab] at h1
    rw [if_pos hbc] at h2
    rw [if_pos (hab.trans hbc)]
    exact strLt_trans h1 h2
  · rw [if_neg hbc] at h2
    have hac : ¬ a.From = c.From := fun he => hbc (hab.symm.trans he)
    rw [if_neg hac, hab]
    exact h2
  · rw [if_neg hab] at h1
    have hac : ¬ a.From = c.From := fun he => hab (he.trans hbc.symm)
    rw [if_neg hac, ← hbc]
    exact h1
  · rw [if_neg hab] at h1
    rw [if_neg hbc] at h2
    have hlt := strLt_trans h1 h2
    by_cases hac : a.From = c.From
    · rw [hac] at h1
      exact absurd (strLt_trans h2 h1) (fun hh => strLt_asymm hh hh)
    · rw [if_neg hac]
      exact hlt

/-- The weak string order `a ≤ b` associated with Go's `<`: not `b < a`. -/
def sLe (a b : String) : Prop := strLt b a = false

instance : DecidableRel sLe := fun a b => inferInstanceAs (Decidable (strLt b a = false))

instance : IsTotal String sLe where
  total a b := by
    cases h : strLt b a with
    | false => exact Or.inl h
    | true =>
      cases h2 : strLt a b with
      | false => exact Or.inr h2
      | true => exact (strLt_asymm h2 h).elim

instance : IsTrans String sLe where
  trans a b c h1 h2 := by
    cases hca : strLt c a with
    | false => exact hca
    | true =>
      cases hbc : strLt b c with
      | false =>
        have hbc2 : b = c := strLt_conn hbc h2
        rw [hbc2] at h1
        exact Bool.noConfusion (h1.symm.trans hca)
      | true => exact Bool.noConfusion (h1.symm.trans (strLt_trans hbc hca))

instance : IsAntisymm String sLe where
  antisymm a b h1 h2 := strLt_conn h2 h1

/-- The weak key order associated with the key sort's `less`: not `kLt b a`. -/
def kLe (a b : eKey) : Prop := kLt b a = false

instance : DecidableRel kLe := fun a b => inferInstanceAs (Decidable (kLt b a = false))

instance : IsTotal eKey kLe where
  total a b := by
    cases h : kLt b a with
    | false => exact Or.inl h
    | true =>
      cases h2 : kLt a b with
      | false => exact Or.inr h2
      | true => exact (kLt_asymm h2 h).elim

instance : IsTrans eKey kLe where
  trans a b c h1 h2 := by
    cases hca : kLt c a with
    | false => exact hca
    | true =>
      cases hbc : kLt b c with
      | false =>
        have hbc2 : b = c := kLt_conn hbc h2
        rw [hbc2] at h1
        exact Bool.noConfusion (h1.symm.trans hca)
      | true => exact Bool.noConfusion (h1.symm.trans (kLt_trans hbc hca))

instance : IsAntisymm eKey kLe where
  antisymm a b h1 h2 := kLt_conn h2 h1

/-- `getSortedTransitionKeys`: the table's keys sorted by `kLt` via `sort.Slice`.
A Go map's keys are distinct, so the sorted arrangement is unique and
independent of the map's iteration order; `insertionSort` by the associated
weak order `kLe` computes it. -/
def getSortedTransitionKeys (ts : List (eKey × Transition)) : List eKey :=
  List.insertionSort kLe (ts.map Prod.fst)

/-- The distinct states occurring as a `From` or a `To` of some registered
transition — the key set of `statesToIDMap` before id assignment. -/
def collectStates (ts : List (eKey × Transition)) : List String :=
  (ts.flatMap (fun p => [p.1.From, p.2.To])).dedup

/-- `getSortedStates`: the distinct endpoint states sorted by `sort.Strings`. -/
def getSortedStates (ts : List (eKey × Transition)) : List String :=
  List.insertionSort sLe (collectStates ts)

/-- `statesToIDMap` after id assignment: the state at position `i` of the
sorted state list maps to `"id" ++ i`; reading a state that is not a key of the
map yields the Go zero value `""`. -/
def stateID (sortedStates : List String) (s : String) : String :=
  match sortedStates.indexOf? s with
  | some i => "id" ++ toString i
  | none => ""

/-- `fm.transitions[k].To` for a key `k` of the table.  The `none` branch is
unreachable when `k` is drawn from the table itself. -/
def lookupTo (ts : List (eKey × Transition)) (k : eKey) : State :=
  match lookupT ts k with
  | some t => t.To
  | none => ""

/-- The flow-chart output (`bufFlowChart` in `View`): header, one node line per
sorted state, a blank line, one edge line per sorted key, a blank line, and the
highlight directive for the current state's id. -/
def viewFlowChart (fm : StateMachine) : String :=
  let sortedTransitionKeys := getSortedTransitionKeys fm.transitions
  let sortedStates := getSortedStates fm.transitions
  let buf := "graph LR\n"
  let buf := sortedStates.foldl
    (fun b s => b ++ ("    " ++ stateID sortedStates s ++ "[" ++ s ++ "]" ++ "\n")) buf
  let buf := buf ++ "\n"
  let buf := sortedTransitionKeys.foldl
    (fun b k => b ++ ("    " ++ stateID sortedStates k.From ++ " --> |" ++ k.Event ++ "| " ++
      stateID sortedStates (lookupTo fm.transitions k) ++ "\n")) buf
  let buf := buf ++ "\n"
  buf ++ "    style " ++ stateID sortedStates fm.current ++ " fill:#00AA00" ++ "\n"

/-- The state-diagram output (`bufDiagram` in `View`): header, the start
pseudo-edge to the render-time current state, then one line per sorted key. -/
def viewDiagram (fm : StateMachine) : String :=
  let sortedTransitionKeys := getSortedTransitionKeys fm.transitions
  let buf := "stateDiagram\n"
  let buf := buf ++ "    [*] --> " ++ fm.current ++ "\n"
  sortedTransitionKeys.foldl
    (fun b k => b ++ ("    " ++ k.From ++ " --> " ++ lookupTo fm.transitions k ++ ": " ++
      k.Event ++ "\n")) buf

/-- The Graphviz output (`bufGraphViz` in `View`): header, one edge statement
per sorted key, a blank line, one node statement per sorted state (the current
state coloured red), and the footer. -/
def viewGraphViz (fm : StateMachine) : String :=
  let sortedTransitionKeys := getSortedTransitionKeys fm.transitions
  let sortedStates := getSortedStates fm.transitions
  let buf := "digraph fsm \x7b" ++ "\n"
  let buf := sortedTransitionKeys.foldl
    (fun b k => b ++ ("    \"" ++ k.From ++ "\" -> \"" ++ lookupTo fm.transitions k ++
      "\" [ label = \"" ++ k.Event ++ "\" ];" ++ "\n")) buf
  let buf := buf ++ "\n"
  let buf := sortedStates.foldl
    (fun b s => b ++ ((if s = fm.current then "    \"" ++ s ++ "\" [color = \"red\"];"
      else "    \"" ++ s ++ "\";") ++ "\n")) buf
  buf ++ "\x7d" ++ "\n"

/-- Go `func (fm *StateMachine) View() (graphViz, flowChart, diagram string)`. -/
def View (fm : StateMachine) : String × String × String :=
  (viewGraphViz fm, viewFlowChart fm, viewDiagram fm)

/-- Hoisting an initial segment out of a string-concatenation fold. -/
theorem strFoldl_append (l : List String) (a b : String) :
    List.foldl (fun x y => x ++ y) (a ++ b) l = a ++ List.foldl (fun x y => x ++ y) b l := by
  induction l generalizing b with
  | nil => rfl
  | cons s l ih =>
    simp only [List.foldl_cons]
    rw [String.append_assoc, ih]

/-- `String.join` peels off its head summand. -/
theorem strJoin_cons (s : String) (l : List String) :
    String.join (s :: l) = s ++ String.join l := by
  show List.foldl (fun x y => x ++ y) "" (s :: l) = s ++ List.foldl (fun x y => x ++ y) "" l
  simp only [List.foldl_cons]
  rw [show ("" ++ s : String) = s from String.empty_append s,
    show s = s ++ "" from (String.append_empty s).symm, strFoldl_append]
  simp [String.append_empty]

/-- A fold that appends one rendered piece per element is the initial buffer
followed by the join of the rendered pieces. -/
theorem foldl_append_eq_join {α : Type} (f : α → String) (l : List α) (init : String) :
    l.foldl (fun b a => b ++ f a) init = init ++ String.join (l.map f) := by
  induction l generalizing init with
  | nil => simp [String.join, String.append_empty]
  | cons a l ih =>
    simp only [List.foldl_cons, List.map_cons]
    rw [ih, strJoin_cons, String.append_assoc]

/-- Sorting by a total, transitive, antisymmetric order is invariant under
rearrangement of the input: the sorted arrangement is unique. -/
theorem insertionSort_eq_of_perm {α : Type} (r : α → α → Prop) [DecidableRel r]
    [IsTotal α r] [IsTrans α r] [IsAntisymm α r] {l1 l2 : List α} (h : l1.Perm l2) :
    List.insertionSort r l1 = List.insertionSort r l2 :=
  List.eq_of_perm_of_sorted
    (((List.perm_insertionSort r l1).trans h).trans (List.perm_insertionSort r l2).symm)
    (List.sorted_insertionSort r l1) (List.sorted_insertionSort r l2)

/-- The collected endpoint states depend only on which transitions are in the
table, not on their arrangement. -/
theorem collectStates_perm {ts1 ts2 : List (eKey × Transition)} (h : ts1.Perm ts2) :
    (collectStates ts1).Perm (collectStates ts2) := by
  refine (List.perm_ext_iff_of_nodup (List.nodup_dedup _) (List.nodup_dedup _)).mpr ?_
  intro a
  simp only [collectStates, List.mem_dedup, List.mem_flatMap]
  constructor
  · rintro ⟨p, hp, hv⟩
    exact ⟨p, h.mem_iff.mp hp, hv⟩
  · rintro ⟨p, hp, hv⟩
    exact ⟨p, h.mem_iff.mpr hp, hv⟩

theorem getSortedStates_perm_eq {ts1 ts2 : List (eKey × Transition)} (h : ts1.Perm ts2) :
    getSortedStates ts1 = getSortedStates ts2 :=
  insertionSort_eq_of_perm sLe (collectStates_perm h)

theorem getSortedTransitionKeys_perm_eq {ts1 ts2 : List (eKey × Transition)} (h : ts1.Perm ts2) :
    getSortedTransitionKeys ts1 = getSortedTransitionKeys ts2 :=
  insertionSort_eq_of_perm kLe (h.map Prod.fst)

theorem lookupTo_perm {ts1 ts2 : List (eKey × Transition)} (hperm : ts1.Perm ts2)
    (hnd : KeysNodup ts1) (k : eKey) : lookupTo ts1 k = lookupTo ts2 k := by
  unfold lookupTo
  rw [lookupT_perm hperm hnd k]

theorem viewDiagram_perm (fm1 fm2 : StateMachine) (hcur : fm1.current = fm2.current)
    (hperm : fm1.transitions.Perm fm2.transitions) (hnd : KeysNodup fm1.transitions) :
    viewDiagram fm1 = viewDiagram fm2 := by
  simp only [viewDiagram]
  rw [hcur, getSortedTransitionKeys_perm_eq hperm]
  simp only [lookupTo_perm hperm hnd]

theorem viewFlowChart_perm (fm1 fm2 : StateMachine) (hcur : fm1.current = fm2.current)
    (hperm : fm1.transitions.Perm fm2.transitions) (hnd : KeysNodup fm1.transitions) :
    viewFlowChart fm1 = viewFlowChart fm2 := by
  simp only [viewFlowChart]
  rw [hcur, getSortedTransitionKeys_perm_eq hperm, getSortedStates_perm_eq hperm]
  simp only [lookupTo_perm hperm hnd]

theorem viewGraphViz_perm (fm1 fm2 : StateMachine) (hcur : fm1.current = fm2.current)
    (hperm : fm1.transitions.Perm fm2.transitions) (hnd : KeysNodup fm1.transitions) :
    viewGraphViz fm1 = viewGraphViz fm2 := by
  simp only [viewGraphViz]
  rw [hcur, getSortedTransitionKeys_perm_eq hperm, getSortedStates_perm_eq hperm]
  simp only [lookupTo_perm hperm hnd]

/-- Claim C7: rendering is deterministic — rendering twice without modification
gives identical output; two tables holding the same transitions (in any
arrangement, with the unique keys a Go map guarantees) and the same current
state render to byte-identical outputs in all three formats; states are emitted
in sorted order and transition keys in sorted `(from, event)` order. -/
theorem view_deterministic (fm1 fm2 : StateMachine) (hcur : fm1.current = fm2.current)
    (hperm : fm1.transitions.Perm fm2.transitions) (hnd : KeysNodup fm1.transitions) :
    View fm1 = View fm1 ∧
    View fm1 = View fm2 ∧
    List.Sorted sLe (getSortedStates fm1.transitions) ∧
    List.Sorted kLe (getSortedTransitionKeys fm1.transitions) := by
  refine ⟨rfl, ?_, List.sorted_insertionSort sLe _, List.sorted_insertionSort kLe _⟩
  unfold View
  rw [viewGraphViz_perm fm1 fm2 hcur hperm hnd, viewFlowChart_perm fm1 fm2 hcur hperm hnd,
    viewDiagram_perm fm1 fm2 hcur hperm hnd]

/-- The same two transitions registered in one order... -/
def tSb : Transition := { From := "S", Event := "b", To := "T", Handle := okHandler }

/-- ...and the other registration order uses the same transitions. -/
def tSa : Transition := { From := "S", Event := "a", To := "U", Handle := okHandler }

/-- Table registered in the order `tSb, tSa`. -/
def fmO1 : StateMachine := (AddTransitions (NewStateMachine "S") [tSb, tSa]).1

/-- Table registered in the order `tSa, tSb`. -/
def fmO2 : StateMachine := (AddTransitions (NewStateMachine "S") [tSa, tSb]).1

/-- Witness for C7: two tables holding the same two transitions registered in
opposite orders render byte-identically, with sorted states and keys. -/
theorem view_deterministic_witness :
    fmO1.current = fmO2.current ∧
    fmO1.transitions.Perm fmO2.transitions ∧
    KeysNodup fmO1.transitions ∧
    (View fmO1 = View fmO1 ∧ View fmO1 = View fmO2 ∧
      List.Sorted sLe (getSortedStates fmO1.transitions) ∧
      List.Sorted kLe (getSortedTransitionKeys fmO1.transitions)) := by
  have hperm : fmO1.transitions.Perm fmO2.transitions := by
    show List.Perm
      [(({ From := "S", Event := "b" } : eKey), tSb), (({ From := "S", Event := "a" } : eKey), tSa)]
      [(({ From := "S", Event := "a" } : eKey), tSa), (({ From := "S", Event := "b" } : eKey), tSb)]
    exact List.Perm.swap _ _ _
  have hnd : KeysNodup fmO1.transitions := by
    show (fmO1.transitions.map Prod.fst).Nodup
    decide
  exact ⟨rfl, hperm, hnd, view_deterministic fmO1 fmO2 rfl hperm hnd⟩

/-- Claim C8 (amended): the state-diagram output is the `stateDiagram` header
line, then the start pseudo-edge line `    [*] --> <current-at-render-time>`,
then exactly one line `    from --> to: event` per registered transition
(the sorted keys are a rearrangement of the table's keys), in sorted
`(from, event)` order. -/
theorem diagram_output_shape (fm : StateMachine) :
    (View fm).2.2 =
      "stateDiagram\n" ++ ("    [*] --> " ++ fm.current ++ "\n") ++
        String.join ((getSortedTransitionKeys fm.transitions).map (fun k =>
          "    " ++ k.From ++ " --> " ++ lookupTo fm.transitions k ++ ": " ++ k.Event ++ "\n")) ∧
    (getSortedTransitionKeys fm.transitions).Perm (fm.transitions.map Prod.fst) ∧
    List.Sorted kLe (getSortedTransitionKeys fm.transitions) := by
  refine ⟨?_, List.perm_insertionSort kLe _, List.sorted_insertionSort kLe _⟩
  show viewDiagram fm = _
  simp only [viewDiagram]
  rw [foldl_append_eq_join (fun k =>
    "    " ++ k.From ++ " --> " ++ lookupTo fm.transitions k ++ ": " ++ k.Event ++ "\n")]
  simp only [String.append_assoc]

/-- Scenario D machine: the 3-state cycle `A -e1-> B -e2-> C -e3-> A`,
registered from start state `A`. -/
def fmD : StateMachine := (AddTransitions (NewStateMachine "A")
  [{ From := "A", Event := "e1", To := "B", Handle := okHandler },
   { From := "B", Event := "e2", To := "C", Handle := okHandler },
   { From := "C", Event := "e3", To := "A", Handle := okHandler }]).1

/-- Counterexample to C8 as stated: for Scenario D the state-diagram output
does not begin with the start pseudo-edge — the first line is the header
`stateDiagram`, and the pseudo-edge (indented) only comes second. -/
theorem diagram_first_line_cex :
    (View fmD).2.2 =
      "stateDiagram\n    [*] --> A\n    A --> B: e1\n    B --> C: e2\n    C --> A: e3\n" ∧
    "[*] --> A".data.isPrefixOf (View fmD).2.2.data = false ∧
    "    [*] --> A".data.isPrefixOf (View fmD).2.2.data = false :=
  ⟨rfl, by decide, by decide⟩

/-- Claim C9 (amended): rendering a table with no registered transitions never
errors; the Graphviz output is bare header and footer, the state-diagram
output is its header plus the start pseudo-edge to the current state, and the
flow-chart output is its header, separator blank lines, and a highlight
directive whose node id is empty (the Go zero value: the current state occurs
in no transition, so it has no synthetic id). -/
theorem view_empty_table (s : State) :
    View (NewStateMachine s) =
      ("digraph fsm \x7b\n\n\x7d\n",
       "graph LR\n\n\n    style  fill:#00AA00\n",
       "stateDiagram\n    [*] --> " ++ s ++ "\n") := rfl

/-- Counterexample to C9 as stated: the flow-chart rendering of an empty table
is not headers/footers with empty bodies — it still contains highlight content,
a `style ... fill:#00AA00` directive (with an empty node id). -/
theorem view_empty_flowchart_highlight_cex :
    (View (NewStateMachine "Pending")).2.1 = "graph LR\n\n\n    style  fill:#00AA00\n" ∧
    "style".data <:+: (View (NewStateMachine "Pending")).2.1.data ∧
    "    style  fill:#00AA00\n".data <:+: (View (NewStateMachine "Pending")).2.1.data :=
  ⟨rfl, by decide, by decide⟩

/-- The four public operations of the package. -/
inductive PublicOp where
  | currentStateOp
  | triggerOp
  | addTransitionsOp
  | viewOp
deriving DecidableEq

/-- Which public operations acquire `fm.mutex` for their full duration, read
off the source: `Trigger` and `AddTransitions` open with `fm.mutex.Lock()` and
`defer fm.mutex.Unlock()`; the bodies of `CurrentState` and `View` contain no
lock operation at all. -/
def acquiresTableLock : PublicOp → Bool
  | .triggerOp => true
  | .addTransitionsOp => true
  | .currentStateOp => false
  | .viewOp => false

/-- Counterexample to C10 as stated: it is not the case that every public
operation acquires the table lock — `CurrentState` (and likewise `View`)
reads the table without taking the mutex. -/
theorem table_lock_cex :
    ¬ (∀ op, acquiresTableLock op = true) ∧
    acquiresTableLock PublicOp.currentStateOp = false ∧
    acquiresTableLock PublicOp.viewOp = false := by
  refine ⟨fun h => ?_, rfl, rfl⟩
  exact Bool.noConfusion (h PublicOp.currentStateOp)

/-- Claim C10 (amended): only `Trigger` and `AddTransitions` acquire the
table-wide mutual-exclusion lock for their full duration; `CurrentState` and
`View` read the current state and the transition map without acquiring it. -/
theorem table_lock_usage :
    acquiresTableLock PublicOp.triggerOp = true ∧
    acquiresTableLock PublicOp.addTransitionsOp = true ∧
    acquiresTableLock PublicOp.currentStateOp = false ∧
    acquiresTableLock PublicOp.viewOp = false :=
  ⟨rfl, rfl, rfl, rfl⟩
